import Mathlib

/-!
Shallow embedding of the mini-redis server core (frame codec, command
parsing, shared database, listener backoff), translated from the Rust
sources, together with proofs about the embedded definitions.

Conventions:
* a Rust `u8` byte is a `Nat` (values are always < 256 where produced);
* Rust `String` and `Bytes` values are modelled as their byte sequences
  (`List Nat`); `usize`/`u64` arithmetic is exact (`Nat`);
* a monotone-clock `Instant` and a `Duration` are `Nat`s counting
  milliseconds (both `Duration::from_secs` and `from_millis` produce whole
  milliseconds);
* fallible Rust code returns `Except`; a `panic!`-like outcome
  (`unimplemented!()`) is the distinguished error `PErr.unimpl`.
-/

namespace MiniRedis

/-- Byte sequence standing for a Rust `String` or `Bytes` value. -/
abbrev RStr := List Nat

/-- ASCII digit test for a byte (`b'0'..=b'9'`). -/
def isDigitByte (b : Nat) : Bool := decide (48 ≤ b) && decide (b ≤ 57)

/-- Value of a digit string, most significant digit first. -/
def digitsVal (bs : List Nat) : Nat := bs.foldl (fun acc b => acc * 10 + (b - 48)) 0

/-- Modelled from the spec: the `atoi` crate version is pinned by the
repository's `Cargo.toml`, which is not among the sources under `src/`.
The spec says a length or integer line is "an unsigned decimal" and that a
non-decimal length is a protocol error, so the parse accepts exactly a
non-empty all-digit slice whose value fits in `u64` and rejects anything
else — in particular a slice with digits followed by non-digit bytes. -/
def atoiU64 (bs : List Nat) : Option Nat :=
  if bs.isEmpty then none
  else if bs.all isDigitByte then
    let v := digitsVal bs
    if v < 2 ^ 64 then some v else none
  else none

/-- Bool range test on bytes, `lo ≤ c ≤ hi`. -/
def between (lo c hi : Nat) : Bool := decide (lo ≤ c) && decide (c ≤ hi)

/-- UTF-8 continuation byte, `0x80..=0xBF`. -/
def isCont (c : Nat) : Bool := between 128 c 191

/-- Validity of a byte sequence as UTF-8, as checked by Rust's
`String::from_utf8` (RFC 3629: no overlong forms, no surrogates, at most
U+10FFFF). -/
def utf8Valid : List Nat → Bool
  | [] => true
  | b :: rest =>
    if b ≤ 127 then utf8Valid rest
    else if between 194 b 223 then
      match rest with
      | c1 :: rest2 => isCont c1 && utf8Valid rest2
      | [] => false
    else if b = 224 then
      match rest with
      | c1 :: c2 :: rest3 => between 160 c1 191 && isCont c2 && utf8Valid rest3
      | _ => false
    else if between 225 b 236 then
      match rest with
      | c1 :: c2 :: rest3 => isCont c1 && isCont c2 && utf8Valid rest3
      | _ => false
    else if b = 237 then
      match rest with
      | c1 :: c2 :: rest3 => between 128 c1 159 && isCont c2 && utf8Valid rest3
      | _ => false
    else if between 238 b 239 then
      match rest with
      | c1 :: c2 :: rest3 => isCont c1 && isCont c2 && utf8Valid rest3
      | _ => false
    else if b = 240 then
      match rest with
      | c1 :: c2 :: c3 :: rest4 =>
        between 144 c1 191 && isCont c2 && isCont c3 && utf8Valid rest4
      | _ => false
    else if between 241 b 243 then
      match rest with
      | c1 :: c2 :: c3 :: rest4 =>
        isCont c1 && isCont c2 && isCont c3 && utf8Valid rest4
      | _ => false
    else if b = 244 then
      match rest with
      | c1 :: c2 :: c3 :: rest4 =>
        between 128 c1 143 && isCont c2 && isCont c3 && utf8Valid rest4
      | _ => false
    else false

/-- ASCII lowercasing of one byte; non-ASCII bytes are untouched. This
models Rust's `str::to_lowercase` on ASCII strings (theorems that use it
carry an ASCII hypothesis, since the byte-level model does not reproduce
Unicode case mapping). -/
def lowerByte (b : Nat) : Nat := if between 65 b 90 then b + 32 else b

/-- ASCII uppercasing of one byte, the model of `str::to_uppercase` on
ASCII strings. -/
def upperByte (b : Nat) : Nat := if between 97 b 122 then b - 32 else b

/-- ASCII `to_lowercase` on a byte string. -/
def asciiLower (s : RStr) : RStr := s.map lowerByte

/-- ASCII `to_uppercase` on a byte string. -/
def asciiUpper (s : RStr) : RStr := s.map upperByte

/-! ## Frame codec (`src/frame.rs`)

`std::io::Cursor<&[u8]>` is a byte buffer plus a read position. -/

/-- A `Cursor<&[u8]>`: the underlying buffer and the current position. -/
@[ext]
structure Cursor where
  data : List Nat
  pos : Nat
deriving DecidableEq

/-- `Buf::remaining`: bytes between the position and the end. -/
def Cursor.remaining (c : Cursor) : Nat := c.data.length - c.pos

/-- Decoder error: `Error::Incomplete`, `Error::Other` (protocol error),
the `unimplemented!()` panic branch of `Frame::parse`, and fuel exhaustion
of the embedding (proved unreachable below). -/
inductive PErr where
  | incomplete
  | protocol
  | unimpl
  | fuelOut
deriving DecidableEq

/-- `peek_u8`: first unread byte without advancing. -/
def peek_u8 (c : Cursor) : Except PErr Nat :=
  if c.pos < c.data.length then .ok (c.data.getD c.pos 0) else .error .incomplete

/-- `get_u8`: read one byte and advance. -/
def get_u8 (c : Cursor) : Except PErr (Nat × Cursor) :=
  if c.pos < c.data.length then .ok (c.data.getD c.pos 0, ⟨c.data, c.pos + 1⟩)
  else .error .incomplete

/-- `skip`: advance `n` bytes if that many remain. -/
def skip (c : Cursor) (n : Nat) : Except PErr Cursor :=
  if c.remaining < n then .error .incomplete else .ok ⟨c.data, c.pos + n⟩

/-- The scan loop of `get_line`: first index `i`, starting at `start` and
taking at most `left` steps (the Rust loop runs `i` over
`start..(len - 1)`, so `left` is instantiated with `(len - 1) - start`),
with a CR at `i` and a LF at `i + 1`. -/
def findCRLF (data : List Nat) : Nat → Nat → Option Nat
  | _, 0 => none
  | start, left + 1 =>
    if data.getD start 0 = 13 ∧ data.getD (start + 1) 0 = 10 then some start
    else findCRLF data (start + 1) left

/-- `get_line`: find a CRLF-terminated line, return it (CRLF excluded) and
move the position past the LF. -/
def get_line (c : Cursor) : Except PErr (List Nat × Cursor) :=
  match findCRLF c.data c.pos (c.data.length - 1 - c.pos) with
  | some i => .ok ((c.data.drop c.pos).take (i - c.pos), ⟨c.data, i + 2⟩)
  | none => .error .incomplete

/-- `get_decimal`: read a line and parse it as a `u64` with `atoi`. -/
def get_decimal (c : Cursor) : Except PErr (Nat × Cursor) :=
  match get_line c with
  | .error e => .error e
  | .ok (line, c') =>
    match atoiU64 line with
    | some v => .ok (v, c')
    | none => .error .protocol

/-- A protocol frame (`enum Frame`). -/
inductive Frame where
  | simple (text : RStr)
  | error (text : RStr)
  | integer (value : Nat)
  | bulk (bytes : RStr)
  | null
  | array (items : List Frame)

/-- Recursion mode of the codec: one frame, or a counted sequence of
frames (the body of the `for _ in 0..len` loop of the `Array` branch). -/
inductive Mode where
  | one
  | many (count : Nat)

/-- `Frame::check`, fuel-indexed. The fuel only bounds the recursion depth
of the embedding (one unit per call); `checkF_no_fuelOut` shows the
instantiation used by `Frame.check` never exhausts it. Byte tags:
43 `+`, 45 `-`, 58 `:`, 36 `$`, 42 `*`. -/
def checkF : Nat → Mode → Cursor → Except PErr Cursor
  | 0, _, _ => .error .fuelOut
  | fuel + 1, .one, c0 =>
    match get_u8 c0 with
    | .error e => .error e
    | .ok (b, c) =>
      if b = 43 then
        match get_line c with
        | .error e => .error e
        | .ok (_, c1) => .ok c1
      else if b = 45 then
        match get_line c with
        | .error e => .error e
        | .ok (_, c1) => .ok c1
      else if b = 58 then
        match get_decimal c with
        | .error e => .error e
        | .ok (_, c1) => .ok c1
      else if b = 36 then
        match peek_u8 c with
        | .error e => .error e
        | .ok pb =>
          if pb = 45 then
            skip c 4
          else
            match get_decimal c with
            | .error e => .error e
            | .ok (len, c1) => skip c1 (len + 2)
      else if b = 42 then
        match get_decimal c with
        | .error e => .error e
        | .ok (len, c1) => checkF fuel (.many len) c1
      else .error .protocol
  | _ + 1, .many 0, c => .ok c
  | fuel + 1, .many (n + 1), c =>
    match checkF fuel .one c with
    | .error e => .error e
    | .ok c1 => checkF fuel (.many n) c1

/-- `Frame::parse`, fuel-indexed like `checkF`. Mode `.one` always yields
a singleton list (`parseF_one_singleton`); `.many n` yields the `n` frames
of an array body. -/
def parseF : Nat → Mode → Cursor → Except PErr (List Frame × Cursor)
  | 0, _, _ => .error .fuelOut
  | fuel + 1, .one, c0 =>
    match get_u8 c0 with
    | .error e => .error e
    | .ok (b, c) =>
      if b = 43 then
        match get_line c with
        | .error e => .error e
        | .ok (line, c1) =>
          if utf8Valid line then .ok ([.simple line], c1) else .error .protocol
      else if b = 45 then
        match get_line c with
        | .error e => .error e
        | .ok (line, c1) =>
          if utf8Valid line then .ok ([.error line], c1) else .error .protocol
      else if b = 58 then
        match get_decimal c with
        | .error e => .error e
        | .ok (v, c1) => .ok ([.integer v], c1)
      else if b = 36 then
        match peek_u8 c with
        | .error e => .error e
        | .ok pb =>
          if pb = 45 then
            match get_line c with
            | .error e => .error e
            | .ok (line, c1) =>
              if line = [45, 49] then .ok ([.null], c1) else .error .protocol
          else
            match get_decimal c with
            | .error e => .error e
            | .ok (len, c1) =>
              if c1.remaining < len + 2 then .error .incomplete
              else
                match skip c1 (len + 2) with
                | .error e => .error e
                | .ok c2 => .ok ([.bulk ((c1.data.drop c1.pos).take len)], c2)
      else if b = 42 then
        match get_decimal c with
        | .error e => .error e
        | .ok (len, c1) =>
          match parseF fuel (.many len) c1 with
          | .error e => .error e
          | .ok (items, c2) => .ok ([.array items], c2)
      else .error .unimpl
  | _ + 1, .many 0, c => .ok ([], c)
  | fuel + 1, .many (n + 1), c =>
    match parseF fuel .one c with
    | .error e => .error e
    | .ok (fs1, c1) =>
      match parseF fuel (.many n) c1 with
      | .error e => .error e
      | .ok (fs2, c2) => .ok (fs1 ++ fs2, c2)

/-- `Frame::check` on a cursor; the fuel `length + 2` is enough for any
buffer (`check_no_fuelOut`). -/
def Frame.check (c : Cursor) : Except PErr Cursor :=
  checkF (c.data.length + 2) .one c

/-- `Frame::parse` on a cursor, producing the parsed frame as a singleton
list together with the final cursor. -/
def Frame.parse (c : Cursor) : Except PErr (List Frame × Cursor) :=
  parseF (c.data.length + 2) .one c

example : Frame.check ⟨[43, 79, 75, 13, 10], 0⟩ = .ok ⟨[43, 79, 75, 13, 10], 5⟩ := rfl
example : Frame.parse ⟨[43, 79, 75, 13, 10], 0⟩ =
    .ok ([.simple [79, 75]], ⟨[43, 79, 75, 13, 10], 5⟩) := rfl
example : Frame.check ⟨[36, 45, 50, 13, 10], 0⟩ = .ok ⟨[36, 45, 50, 13, 10], 5⟩ := rfl
example : Frame.parse ⟨[36, 45, 50, 13, 10], 0⟩ = .error .protocol := rfl
example : Frame.parse ⟨[36, 45, 49, 13, 10], 0⟩ =
    .ok ([.null], ⟨[36, 45, 49, 13, 10], 5⟩) := rfl
example :
    Frame.parse ⟨[42, 50, 13, 10, 58, 55, 13, 10, 36, 49, 13, 10, 97, 13, 10], 0⟩ =
    .ok ([.array [.integer 7, .bulk [97]]],
      ⟨[42, 50, 13, 10, 58, 55, 13, 10, 36, 49, 13, 10, 97, 13, 10], 15⟩) := rfl
example : Frame.check ⟨[43, 255, 13, 10], 0⟩ = .ok ⟨[43, 255, 13, 10], 4⟩ := rfl
example : Frame.parse ⟨[43, 255, 13, 10], 0⟩ = .error .protocol := rfl
example : Frame.parse ⟨[64, 13, 10], 0⟩ = .error .unimpl := rfl
example : Frame.check ⟨[64, 13, 10], 0⟩ = .error .protocol := rfl



/-- Relation between one `check` outcome and the corresponding `parse`
outcome: on `check` success, `parse` either succeeds at the same final
cursor or fails with a protocol error or `Incomplete`; on `check` failure,
`parse` does not succeed. -/
def RelOne : Except PErr Cursor → Except PErr (List Frame × Cursor) → Prop
  | .ok c', p =>
    (∃ f, p = .ok ([f], c')) ∨ p = .error .protocol ∨ p = .error .incomplete
  | .error _, p => ∀ fs c', p ≠ .ok (fs, c')

/-- `RelOne`, for the counted-sequence mode of the codec. -/
def RelMany : Except PErr Cursor → Except PErr (List Frame × Cursor) → Prop
  | .ok c', p =>
    (∃ fs, p = .ok (fs, c')) ∨ p = .error .protocol ∨ p = .error .incomplete
  | .error _, p => ∀ fs c', p ≠ .ok (fs, c')

/-- Mode-indexed combination of `RelOne` and `RelMany`. -/
def Rel : Mode → Except PErr Cursor → Except PErr (List Frame × Cursor) → Prop
  | .one, r, p => RelOne r p
  | .many _, r, p => RelMany r p

/-- The fuel demanded of `checkF` by mode. -/
def modeNeed : Mode → Nat
  | .one => 1
  | .many _ => 2

/-! ## Command-argument cursor (`src/parse.rs`) and commands (`src/cmd`) -/

/-- `ParseError`: the distinguished end-of-stream condition, and every
other (protocol) error. -/
inductive ParseError where
  | endOfStream
  | other
deriving DecidableEq

/-- `Parse::new`: the frame must be an array; its children become the
cursor (the `parts` iterator, modelled as the list of frames not yet
consumed). -/
def Parse.new : Frame → Except ParseError (List Frame)
  | .array items => .ok items
  | _ => .error .other

/-- The per-frame content of `Parse::next_string`: `Simple` is already a
string, `Bulk` must be valid UTF-8, everything else is an error. -/
def frameToStr : Frame → Option RStr
  | .simple s => some s
  | .bulk data => if utf8Valid data then some data else none
  | _ => none

/-- The per-frame content of `Parse::next_bytes`: `Simple` and `Bulk`
both convert to raw bytes. -/
def frameToBytes : Frame → Option RStr
  | .simple s => some s
  | .bulk data => some data
  | _ => none

/-- The per-frame content of `Parse::next_int`: `Integer` directly,
`Simple`/`Bulk` through `atoi`. -/
def frameToInt : Frame → Option Nat
  | .integer v => some v
  | .simple s => atoiU64 s
  | .bulk data => atoiU64 data
  | _ => none

/-- `Parse::next_string` (the `next()` step plus the string conversion). -/
def next_string : List Frame → Except ParseError (RStr × List Frame)
  | [] => .error .endOfStream
  | f :: rest =>
    match frameToStr f with
    | some s => .ok (s, rest)
    | none => .error .other

/-- `Parse::next_bytes`. -/
def next_bytes : List Frame → Except ParseError (RStr × List Frame)
  | [] => .error .endOfStream
  | f :: rest =>
    match frameToBytes f with
    | some b => .ok (b, rest)
    | none => .error .other

/-- `Parse::next_int`. -/
def next_int : List Frame → Except ParseError (Nat × List Frame)
  | [] => .error .endOfStream
  | f :: rest =>
    match frameToInt f with
    | some v => .ok (v, rest)
    | none => .error .other

/-- `Parse::finish`: succeeds exactly when no children remain. -/
def finish (parts : List Frame) : Except ParseError Unit :=
  match parts with
  | [] => .ok ()
  | _ :: _ => .error .other

/-- `Duration::from_secs`, as a count of milliseconds (`Duration`s are
`Nat`s of milliseconds throughout). -/
def durationFromSecs (s : Nat) : Nat := 1000 * s

/-- `Duration::from_millis`. -/
def durationFromMillis (ms : Nat) : Nat := ms

/-- ASCII bytes of `get`. -/
def strGet : RStr := [103, 101, 116]

/-- ASCII bytes of `publish`. -/
def strPublish : RStr := [112, 117, 98, 108, 105, 115, 104]

/-- ASCII bytes of `set`. -/
def strSet : RStr := [115, 101, 116]

/-- ASCII bytes of `subscribe`. -/
def strSubscribe : RStr := [115, 117, 98, 115, 99, 114, 105, 98, 101]

/-- ASCII bytes of `unsubscribe`. -/
def strUnsubscribe : RStr := [117, 110, 115, 117, 98, 115, 99, 114, 105, 98, 101]

/-- ASCII bytes of `ping`. -/
def strPing : RStr := [112, 105, 110, 103]

/-- The `Get` command. -/
structure Get where
  key : RStr
deriving DecidableEq

/-- The `Publish` command. -/
structure Publish where
  channel : RStr
  message : RStr
deriving DecidableEq

/-- The `Set` command: key, value and optional time to live. -/
structure Set where
  key : RStr
  value : RStr
  expire : Option Nat
deriving DecidableEq

/-- The `Subscribe` command. -/
structure Subscribe where
  channels : List RStr
deriving DecidableEq

/-- The `Unsubscribe` command. -/
structure Unsubscribe where
  channels : List RStr
deriving DecidableEq

/-- The `Ping` command. -/
structure Ping where
  msg : Option RStr
deriving DecidableEq

/-- An unrecognized command, retaining the lowercased name. -/
structure Unknown where
  command_name : RStr
deriving DecidableEq

/-- `enum Command`. -/
inductive Command where
  | get (cmd : Get)
  | publish (cmd : Publish)
  | set (cmd : Set)
  | subscribe (cmd : Subscribe)
  | unsubscribe (cmd : Unsubscribe)
  | ping (cmd : Ping)
  | unknown (cmd : Unknown)
deriving DecidableEq

/-- `Get::parse_frames`: one mandatory key. -/
def Get.parse_frames (parts : List Frame) : Except ParseError (Get × List Frame) :=
  match next_string parts with
  | .error e => .error e
  | .ok (key, rest) => .ok (⟨key⟩, rest)

/-- `Publish::parse_frames`: channel string then message bytes. -/
def Publish.parse_frames (parts : List Frame) :
    Except ParseError (Publish × List Frame) :=
  match next_string parts with
  | .error e => .error e
  | .ok (channel, p1) =>
    match next_bytes p1 with
    | .error e => .error e
    | .ok (message, p2) => .ok (⟨channel, message⟩, p2)

/-- `Set::parse_frames`: key, value, then an optional `EX seconds` or
`PX milliseconds` pair; end-of-stream after the value means no TTL, and
any other option word is an error. -/
def Set.parse_frames (parts : List Frame) : Except ParseError (Set × List Frame) :=
  match next_string parts with
  | .error e => .error e
  | .ok (key, p1) =>
    match next_bytes p1 with
    | .error e => .error e
    | .ok (value, p2) =>
      match next_string p2 with
      | .ok (s, p3) =>
        if asciiUpper s = [69, 88] then
          match next_int p3 with
          | .error e => .error e
          | .ok (secs, p4) => .ok (⟨key, value, some (durationFromSecs secs)⟩, p4)
        else if asciiUpper s = [80, 88] then
          match next_int p3 with
          | .error e => .error e
          | .ok (ms, p4) => .ok (⟨key, value, some (durationFromMillis ms)⟩, p4)
        else .error .other
      | .error .endOfStream => .ok (⟨key, value, none⟩, p2)
      | .error .other => .error .other

/-- The shared loop of `Subscribe::parse_frames` and
`Unsubscribe::parse_frames`: read strings until end-of-stream, failing on
any non-string child. -/
def parseStrings : List Frame → Except ParseError (List RStr)
  | [] => .ok []
  | f :: rest =>
    match frameToStr f with
    | some s =>
      match parseStrings rest with
      | .ok ss => .ok (s :: ss)
      | .error e => .error e
    | none => .error .other

/-- `Subscribe::parse_frames`: at least one channel, then the rest of the
frame. The loop consumes the whole cursor. -/
def Subscribe.parse_frames (parts : List Frame) :
    Except ParseError (Subscribe × List Frame) :=
  match next_string parts with
  | .error e => .error e
  | .ok (first, rest) =>
    match parseStrings rest with
    | .ok ss => .ok (⟨first :: ss⟩, [])
    | .error e => .error e

/-- `Unsubscribe::parse_frames`: zero or more channels; the loop consumes
the whole cursor. -/
def Unsubscribe.parse_frames (parts : List Frame) :
    Except ParseError (Unsubscribe × List Frame) :=
  match parseStrings parts with
  | .ok ss => .ok (⟨ss⟩, [])
  | .error e => .error e

/-- `Ping::parse_frames`: an optional bulk message; end-of-stream means
no message. -/
def Ping.parse_frames (parts : List Frame) :
    Except ParseError (Ping × List Frame) :=
  match next_bytes parts with
  | .ok (msg, rest) => .ok (⟨some msg⟩, rest)
  | .error .endOfStream => .ok (⟨none⟩, parts)
  | .error .other => .error .other

/-- `Command::from_frame`: the frame must be an array; the first child is
the command name, lowercased; known names parse their arguments and then
require `finish` (no leftover children); an unknown name returns
immediately as `Unknown`, skipping `finish`. -/
def Command.from_frame (frame : Frame) : Except ParseError Command :=
  match Parse.new frame with
  | .error e => .error e
  | .ok parts =>
    match next_string parts with
    | .error e => .error e
    | .ok (name, rest) =>
      let command_name := asciiLower name
      if command_name = strGet then
        match Get.parse_frames rest with
        | .error e => .error e
        | .ok (cmd, rest1) =>
          match finish rest1 with
          | .error e => .error e
          | .ok _ => .ok (.get cmd)
      else if command_name = strPublish then
        match Publish.parse_frames rest with
        | .error e => .error e
        | .ok (cmd, rest1) =>
          match finish rest1 with
          | .error e => .error e
          | .ok _ => .ok (.publish cmd)
      else if command_name = strSet then
        match Set.parse_frames rest with
        | .error e => .error e
        | .ok (cmd, rest1) =>
          match finish rest1 with
          | .error e => .error e
          | .ok _ => .ok (.set cmd)
      else if command_name = strSubscribe then
        match Subscribe.parse_frames rest with
        | .error e => .error e
        | .ok (cmd, rest1) =>
          match finish rest1 with
          | .error e => .error e
          | .ok _ => .ok (.subscribe cmd)
      else if command_name = strUnsubscribe then
        match Unsubscribe.parse_frames rest with
        | .error e => .error e
        | .ok (cmd, rest1) =>
          match finish rest1 with
          | .error e => .error e
          | .ok _ => .ok (.unsubscribe cmd)
      else if command_name = strPing then
        match Ping.parse_frames rest with
        | .error e => .error e
        | .ok (cmd, rest1) =>
          match finish rest1 with
          | .error e => .error e
          | .ok _ => .ok (.ping cmd)
      else .ok (.unknown ⟨command_name⟩)

/-- `Command::get_name` (`"pub"` is the name the source reports for
`Publish`). -/
def Command.get_name : Command → RStr
  | .get _ => strGet
  | .publish _ => [112, 117, 98]
  | .set _ => strSet
  | .subscribe _ => strSubscribe
  | .unsubscribe _ => strUnsubscribe
  | .ping _ => strPing
  | .unknown cmd => cmd.command_name

/-- ASCII bytes of the prefix `ERR unknown command '` (ending in an
apostrophe, byte 39). -/
def strErrUnknown : RStr :=
  [69, 82, 82, 32, 117, 110, 107, 110, 111, 119, 110, 32, 99, 111, 109,
   109, 97, 110, 100, 32, 39]

/-- `Unknown::apply`: the frames written to the connection — exactly one
Error frame `ERR unknown command '<name>'` — before returning `Ok(())`. -/
def Unknown.applyFrames (cmd : Unknown) : List Frame :=
  [.error (strErrUnknown ++ cmd.command_name ++ [39])]

/-- The `Unknown` arm of `Command::apply`: `Unknown::apply` is not passed
the database, so dispatching it returns the state unchanged together with
the frames written, and succeeds (the handler keeps the connection open
on a success). -/
def Command.applyUnknown (cmd : Unknown) (s : State) : State × List Frame :=
  (s, cmd.applyFrames)

example : Command.from_frame (.array [.bulk [70, 79, 79], .bulk [104, 105]]) =
    .ok (.unknown ⟨[102, 111, 111]⟩) := rfl
example : Command.from_frame (.array [.bulk strGet, .bulk [107]]) =
    .ok (.get ⟨[107]⟩) := rfl
example : Command.from_frame (.array [.bulk strGet, .bulk [107], .bulk [120]]) =
    .error .other := rfl
example : Set.parse_frames [.bulk [107], .bulk [118]] = .ok (⟨[107], [118], none⟩, []) := rfl
example : Set.parse_frames [.bulk [107], .bulk [118], .simple [69, 88], .integer 1] =
    .ok (⟨[107], [118], some 1000⟩, []) := rfl
example : Set.parse_frames [.bulk [107], .bulk [118], .simple [101, 120], .integer 1] =
    .ok (⟨[107], [118], some 1000⟩, []) := rfl
example : Set.parse_frames [.bulk [107], .bulk [118], .simple [88, 88], .integer 1] =
    .error .other := rfl

/-! ## Subscribed sub-state (`src/cmd/subscribe.rs`) -/

/-- `make_subscribe_frame`: `["subscribe", channel, n]`. -/
def make_subscribe_frame (channel : RStr) (num_subs : Nat) : Frame :=
  .array [.bulk strSubscribe, .bulk channel, .integer num_subs]

/-- `make_unsubscribe_frame`: `["unsubscribe", channel, n]`. -/
def make_unsubscribe_frame (channel : RStr) (num_subs : Nat) : Frame :=
  .array [.bulk strUnsubscribe, .bulk channel, .integer num_subs]

/-- The `for channel_name in unsubscribe.channels` loop of
`handle_command`: remove each named channel from the subscription map
(`StreamMap` keys are unique, so removal is by key) and write an
acknowledgement carrying the subscription count after the removal.
Returns the final subscription keys and the frames written. -/
def unsubscribeLoop : List RStr → List RStr → List RStr × List Frame
  | [], subs => (subs, [])
  | ch :: chs, subs =>
    let subs1 := subs.filter (fun k => k ≠ ch)
    let res := unsubscribeLoop chs subs1
    (res.1, make_unsubscribe_frame ch subs1.length :: res.2)

/-- `handle_command` in the subscribed sub-state: parse the client frame;
SUBSCRIBE extends the deferred `subscribe_to` list (applied at the top of
the outer loop), UNSUBSCRIBE with no channels fills in all current
subscription keys and then removes and acknowledges each channel, and any
other command is answered by `Unknown::apply` on the command's name.
Returns the deferred list, the subscription keys and the frames
written. -/
def handle_command (frame : Frame) (subscribe_to subs : List RStr) :
    Except ParseError (List RStr × List RStr × List Frame) :=
  match Command.from_frame frame with
  | .error e => .error e
  | .ok (.subscribe cmd) => .ok (subscribe_to ++ cmd.channels, subs, [])
  | .ok (.unsubscribe cmd) =>
    let channels := if cmd.channels.isEmpty then subs else cmd.channels
    let res := unsubscribeLoop channels subs
    .ok (subscribe_to, res.1, res.2)
  | .ok cmd => .ok (subscribe_to, subs, Unknown.applyFrames ⟨cmd.get_name⟩)

example : handle_command (.array [.bulk strUnsubscribe, .bulk [102, 111, 111]]) [] [] =
    .ok ([], [], [make_unsubscribe_frame [102, 111, 111] 0]) := rfl

/-! ## Shared database (`src/db.rs`) -/

/-- A stored `Entry`: the value bytes and the optional expiration
instant. -/
structure Entry where
  data : RStr
  expires_at : Option Nat
deriving DecidableEq

/-- Byte-wise lexicographic strict order on keys (the `Ord` of Rust
`String` restricted to its byte comparison, which is what `Ord` does). -/
def keyLt : RStr → RStr → Bool
  | [], [] => false
  | [], _ :: _ => true
  | _ :: _, [] => false
  | x :: xs, y :: ys =>
    if x < y then true else if y < x then false else keyLt xs ys

/-- The `Ord` of `(Instant, String)` pairs used by the
`BTreeSet<(Instant, String)>`: time first, then key. -/
def pairLt (p q : Nat × RStr) : Bool :=
  if p.1 < q.1 then true
  else if q.1 < p.1 then false
  else keyLt p.2 q.2

/-- `BTreeSet::insert` on the canonical model of the set: a strictly
sorted, duplicate-free list. -/
def btInsert (x : Nat × RStr) : List (Nat × RStr) → List (Nat × RStr)
  | [] => [x]
  | y :: rest =>
    if pairLt x y then x :: y :: rest
    else if x = y then y :: rest
    else y :: btInsert x rest

/-- `BTreeSet::remove`. -/
def btRemove (x : Nat × RStr) (l : List (Nat × RStr)) :
    List (Nat × RStr) :=
  l.filter (fun y => y ≠ x)

/-- Functional lookup in the association-list model of
`HashMap<String, Entry>` (and of the pub/sub registry). -/
def alookup {α : Type} (k : RStr) : List (RStr × α) → Option α
  | [] => none
  | (k', v) :: rest => if k' = k then some v else alookup k rest

/-- Removal of a key from the association list. -/
def aremove {α : Type} (k : RStr) (l : List (RStr × α)) : List (RStr × α) :=
  l.filter (fun p => p.1 ≠ k)

/-- `HashMap::insert`: store the binding and return the value previously
held by the key, if any. -/
def ainsert {α : Type} (k : RStr) (v : α) (l : List (RStr × α)) :
    Option α × List (RStr × α) :=
  (alookup k l, (k, v) :: aremove k l)

/-- The shared `State` behind the mutex: the key/value entries, the
pub/sub registry (channel name to live receiver count, standing for the
`broadcast::Sender` and its subscriber count), the expiration index, and
the shutdown flag. -/
structure State where
  entries : List (RStr × Entry)
  pub_sub : List (RStr × Nat)
  expirations : List (Nat × RStr)
  shutdown : Bool

/-- `State::next_expiration`: the first element of the ordered set. -/
def State.next_expiration (s : State) : Option Nat :=
  s.expirations.head?.map Prod.fst

/-- `Db::get`: lock, look up, clone the byte-string handle. The state is
returned unchanged — `get` takes `&self` and never mutates. -/
def Db.get (s : State) (key : RStr) : State × Option RStr :=
  (s, (alookup key s.entries).map Entry.data)

/-- `Db::set` at clock instant `now`: compute `expires_at = now + ttl`
and the `notify` flag against the current earliest expiration (before
the maps change); insert the new entry, remembering the previous one;
remove the previous `(when, key)` pair, if any, from the ordered set;
insert the new pair; return the new state and the `notify` flag (the
reaper is woken after the lock is dropped, see `Db.setEvents`). -/
def Db.set (s : State) (key value : RStr) (expire : Option Nat)
    (now : Nat) : State × Bool :=
  let expires_at := expire.map (fun d => now + d)
  let notify :=
    match expires_at with
    | none => false
    | some w =>
      match s.next_expiration with
      | none => true
      | some expiration => decide (w < expiration)
  let res := ainsert key ⟨value, expires_at⟩ s.entries
  let exp1 :=
    match res.1 with
    | some prev =>
      match prev.expires_at with
      | some w => btRemove (w, key) s.expirations
      | none => s.expirations
    | none => s.expirations
  let exp2 :=
    match expires_at with
    | some w => btInsert (w, key) exp1
    | none => exp1
  ({ s with entries := res.2, expirations := exp2 }, notify)

/-- The mutex-relevant actions of one `Db::set` call, in program order:
the lock is acquired on entry, released by `drop(state)`, and only then —
when the `notify` flag is set — is the reaper notifier signalled. -/
inductive DbEvent where
  | lockAcquire
  | lockRelease
  | notifyReaper
deriving DecidableEq

/-- The event trace of `Db::set` (see `DbEvent`). -/
def Db.setEvents (s : State) (key value : RStr) (expire : Option Nat)
    (now : Nat) : List DbEvent :=
  [.lockAcquire, .lockRelease] ++
    (if (Db.set s key value expire now).2 then [.notifyReaper] else [])

/-- The `while let` loop of `purge_expired_keys`: look at the first
(smallest) pair of the ordered set; if it is in the future, stop and
report it as the next deadline; otherwise remove the entry and the pair
(removing the set's first element is dropping the head of the sorted
duplicate-free list) and continue. -/
def purgeLoop (now : Nat) :
    List (Nat × RStr) → List (RStr × Entry) →
      List (Nat × RStr) × List (RStr × Entry) × Option Nat
  | [], entries => ([], entries, none)
  | (w, key) :: rest, entries =>
    if now < w then ((w, key) :: rest, entries, some w)
    else purgeLoop now rest (aremove key entries)

/-- `Shared::purge_expired_keys` at instant `now`: when shutting down,
nothing happens and no deadline is returned; otherwise expired pairs are
purged in set order and the next deadline, if any, is returned. -/
def purge_expired_keys (s : State) (now : Nat) : State × Option Nat :=
  if s.shutdown then (s, none)
  else
    let res := purgeLoop now s.expirations s.entries
    ({ s with expirations := res.1, entries := res.2.1 }, res.2.2)

/-- `Db::subscribe`: an occupied channel hands out one more receiver; a
vacant one is created (capacity 1024) with its first receiver. The
receiver handle is represented by the updated count. -/
def Db.subscribe (s : State) (key : RStr) : State :=
  match alookup key s.pub_sub with
  | some n => { s with pub_sub := (key, n + 1) :: aremove key s.pub_sub }
  | none => { s with pub_sub := (key, 1) :: aremove key s.pub_sub }

/-- `Db::publish`: the state is unchanged; the result is the number of
receivers of the channel, `0` when the channel is absent or the send
fails for lack of receivers. -/
def Db.publish (s : State) (key : RStr) : State × Nat :=
  (s, match alookup key s.pub_sub with
      | some n => n
      | none => 0)

/-- `Db::shutdown_purge_task`: set the shutdown flag under the lock (the
notifier is signalled after unlock). -/
def shutdown_purge_task (s : State) : State :=
  { s with shutdown := true }

/-- The database invariant of the spec: a key `k` is present with
`expires_at = Some t` iff the pair `(t, k)` is in `expirations`, and no
two pairs of `expirations` share a key. -/
def DbInv (s : State) : Prop :=
  (∀ k t, (∃ e, alookup k s.entries = some e ∧ e.expires_at = some t) ↔
      (t, k) ∈ s.expirations) ∧
    s.expirations.Pairwise (fun p q => p.2 ≠ q.2)

/-- Well-formedness of the `BTreeSet` model: strictly sorted in
`(time, key)` order. -/
def ExpWF (s : State) : Prop :=
  s.expirations.Pairwise (fun p q => pairLt p q = true)

/-! ## Listener accept backoff (`src/server.rs`) -/

/-- Outcome of one `Listener::accept` call over a sequence of attempt
outcomes (`true` = the underlying `listener.accept()` failed), with the
sleeps performed in seconds: a connection was accepted, the error was
surfaced, or the recorded outcomes ran out with the loop still awaiting
the next attempt. -/
inductive AcceptOutcome where
  | accepted (sleeps : List Nat)
  | errored (sleeps : List Nat)
  | pending (sleeps : List Nat)
deriving DecidableEq

/-- The retry loop of `Listener::accept`: a successful attempt returns
the socket; a failed attempt surfaces the error if `backoff > 64`, and
otherwise sleeps `backoff` seconds and doubles `backoff`. -/
def acceptLoop (backoff : Nat) : List Bool → AcceptOutcome
  | [] => .pending []
  | false :: _ => .accepted []
  | true :: rest =>
    if backoff > 64 then .errored []
    else
      match acceptLoop (backoff * 2) rest with
      | .accepted sleeps => .accepted (backoff :: sleeps)
      | .errored sleeps => .errored (backoff :: sleeps)
      | .pending sleeps => .pending (backoff :: sleeps)

/-- `Listener::accept` starts with `backoff = 1`. -/
def Listener.accept (attempts : List Bool) : AcceptOutcome :=
  acceptLoop 1 attempts

example : Listener.accept [true, true, false] = .accepted [1, 2] := rfl
example : Listener.accept (List.replicate 8 true) =
    .errored [1, 2, 4, 8, 16, 32, 64] := by decide


/-! ## Codec lemmas and claim theorems -/

/-! ## Codec lemmas -/

theorem findCRLF_some {data : List Nat} :
    ∀ {left start i}, findCRLF data start left = some i → start ≤ i ∧ i < start + left := by
  intro left
  induction left with
  | zero => intro start i h; simp [findCRLF] at h
  | succ left ih =>
    intro start i h
    simp only [findCRLF] at h
    split at h
    · cases h; omega
    · have := ih h; omega

theorem get_line_ok {c : Cursor} {l : List Nat} {c' : Cursor}
    (h : get_line c = .ok (l, c')) :
    c'.data = c.data ∧ c'.pos = c.pos + l.length + 2 ∧ c.pos + l.length + 2 ≤ c.data.length := by
  unfold get_line at h
  cases hf : findCRLF c.data c.pos (c.data.length - 1 - c.pos) with
  | none => rw [hf] at h; cases h
  | some i =>
    rw [hf] at h
    obtain ⟨hlo, hhi⟩ := findCRLF_some hf
    cases h
    have hlen : ((c.data.drop c.pos).take (i - c.pos)).length = i - c.pos := by
      simp only [List.length_take, List.length_drop]
      omega
    refine ⟨rfl, by simp [hlen]; omega, by simp [hlen]; omega⟩

theorem get_line_error {c : Cursor} {e : PErr} (h : get_line c = .error e) :
    e = .incomplete := by
  unfold get_line at h
  cases hf : findCRLF c.data c.pos (c.data.length - 1 - c.pos)
  · rw [hf] at h
    cases h
    rfl
  · rw [hf] at h
    cases h

theorem skip_ok {c : Cursor} {n : Nat} {c' : Cursor} (h : skip c n = .ok c') :
    c' = ⟨c.data, c.pos + n⟩ ∧ n ≤ c.remaining := by
  unfold skip at h
  split at h
  · cases h
  · cases h; exact ⟨rfl, by omega⟩

theorem skip_error {c : Cursor} {n : Nat} {e : PErr} (h : skip c n = .error e) :
    e = .incomplete ∧ c.remaining < n := by
  unfold skip at h
  split at h
  · cases h; exact ⟨rfl, by assumption⟩
  · cases h

theorem rel_main : ∀ fuel m c, Rel m (checkF fuel m c) (parseF fuel m c) := by
  intro fuel
  induction fuel with
  | zero => intro m c; cases m <;> simp [checkF, parseF, Rel, RelOne, RelMany]
  | succ fuel ih =>
    intro m c
    match m with
    | .many 0 => simp [checkF, parseF, Rel, RelMany]
    | .many (n + 1) =>
      simp only [checkF, parseF, Rel]
      have h1 := ih .one c
      cases hc1 : checkF fuel .one c with
      | error e =>
        rw [hc1] at h1
        simp only [Rel] at h1
        cases hp1 : parseF fuel .one c with
        | error e' => simp [RelMany]
        | ok v => exact absurd hp1 (h1 v.1 v.2)
      | ok c1 =>
        rw [hc1] at h1
        simp only [Rel, RelOne] at h1
        have h2 := ih (.many n) c1
        rcases h1 with ⟨f, hp1⟩ | hp1 | hp1
        · cases hc2 : checkF fuel (.many n) c1 with
          | error e =>
            rw [hc2] at h2
            simp only [Rel] at h2
            cases hp2 : parseF fuel (.many n) c1 with
            | error e' => simp [RelMany, hc2, hp1, hp2]
            | ok v => exact absurd hp2 (h2 v.1 v.2)
          | ok c2 =>
            rw [hc2] at h2
            simp only [Rel, RelMany] at h2
            rcases h2 with ⟨fs, hp2⟩ | hp2 | hp2 <;> simp [RelMany, hc2, hp1, hp2]
        · cases hc2 : checkF fuel (.many n) c1 <;> simp [RelMany, hc2, hp1]
        · cases hc2 : checkF fuel (.many n) c1 <;> simp [RelMany, hc2, hp1]
    | .one =>
      simp only [checkF, parseF, Rel]
      cases hgu : get_u8 c with
      | error e => simp [RelOne]
      | ok v =>
      obtain ⟨b, c1⟩ := v
      by_cases hb43 : b = 43
      · subst hb43
        simp only [if_pos rfl]
        cases hgl : get_line c1 with
        | error e => simp [RelOne]
        | ok v =>
          obtain ⟨line, c2⟩ := v
          by_cases hu : utf8Valid line <;> simp [RelOne, hu]
      · simp only [if_neg hb43]
        by_cases hb45 : b = 45
        · subst hb45
          simp only [if_pos rfl]
          cases hgl : get_line c1 with
          | error e => simp [RelOne]
          | ok v =>
            obtain ⟨line, c2⟩ := v
            by_cases hu : utf8Valid line <;> simp [RelOne, hu]
        · simp only [if_neg hb45]
          by_cases hb58 : b = 58
          · subst hb58
            simp only [if_pos rfl]
            cases hgd : get_decimal c1 with
            | error e => simp [RelOne]
            | ok v => obtain ⟨x, c2⟩ := v; simp [RelOne]
          · simp only [if_neg hb58]
            by_cases hb36 : b = 36
            · subst hb36
              simp only [if_pos rfl]
              cases hpk : peek_u8 c1 with
              | error e => simp [RelOne]
              | ok pb =>
                by_cases hpb : pb = 45
                · cases hsk : skip c1 4 with
                  | ok c' =>
                    obtain ⟨hc', hrem⟩ := skip_ok hsk
                    cases hgl : get_line c1 with
                    | error e =>
                      simp [RelOne, hpb, hsk, hgl, get_line_error hgl]
                    | ok v =>
                      obtain ⟨line, c2⟩ := v
                      by_cases hline : line = [45, 49]
                      · obtain ⟨hd, hp, _⟩ := get_line_ok hgl
                        have hcc : c2 = c' := by
                          rw [hc']
                          refine Cursor.ext hd ?_
                          rw [hp, hline]
                          simp
                        simp [RelOne, hpb, hsk, hgl, hline, hcc]
                      · simp [RelOne, hpb, hsk, hgl, hline]
                  | error e =>
                    cases hgl : get_line c1 with
                    | error e' => simp [RelOne, hpb, hsk, hgl]
                    | ok v =>
                      obtain ⟨line, c2⟩ := v
                      by_cases hline : line = [45, 49]
                      · exfalso
                        obtain ⟨he, hrem⟩ := skip_error hsk
                        obtain ⟨_, _, hle⟩ := get_line_ok hgl
                        rw [hline] at hle
                        simp only [List.length_cons, List.length_nil] at hle
                        unfold Cursor.remaining at hrem
                        omega
                      · simp [RelOne, hpb, hsk, hgl, hline]
                · cases hgd : get_decimal c1 with
                  | error e => simp [RelOne, hpb, hgd]
                  | ok v =>
                    obtain ⟨len, c2⟩ := v
                    by_cases hrem : c2.remaining < len + 2
                    · have hsk : skip c2 (len + 2) = .error .incomplete := by
                        unfold skip; rw [if_pos hrem]
                      simp [RelOne, hpb, hgd, hrem, hsk]
                    · have hsk : skip c2 (len + 2) = .ok ⟨c2.data, c2.pos + (len + 2)⟩ := by
                        unfold skip; rw [if_neg hrem]
                      simp [RelOne, hpb, hgd, hrem, hsk]
            · simp only [if_neg hb36]
              by_cases hb42 : b = 42
              · subst hb42
                simp only [if_pos rfl]
                cases hgd : get_decimal c1 with
                | error e => simp [RelOne]
                | ok v =>
                  obtain ⟨len, c2⟩ := v
                  have hm := ih (.many len) c2
                  cases hcm : checkF fuel (.many len) c2 with
                  | error e =>
                    rw [hcm] at hm
                    simp only [Rel] at hm
                    cases hpm : parseF fuel (.many len) c2 with
                    | error e' => simp [RelOne, hcm, hpm]
                    | ok v' => exact absurd hpm (hm v'.1 v'.2)
                  | ok c3 =>
                    rw [hcm] at hm
                    simp only [Rel, RelMany] at hm
                    rcases hm with ⟨fs, hpm⟩ | hpm | hpm <;> simp [RelOne, hcm, hpm]
              · simp only [if_neg hb42]
                simp [RelOne]

theorem get_u8_ok {c : Cursor} {b : Nat} {c' : Cursor} (h : get_u8 c = .ok (b, c')) :
    c' = ⟨c.data, c.pos + 1⟩ ∧ c.pos < c.data.length := by
  unfold get_u8 at h
  split at h
  · cases h; exact ⟨rfl, by assumption⟩
  · cases h

theorem get_u8_error {c : Cursor} {e : PErr} (h : get_u8 c = .error e) :
    e = .incomplete := by
  unfold get_u8 at h
  split at h
  · cases h
  · cases h; rfl

theorem peek_u8_error {c : Cursor} {e : PErr} (h : peek_u8 c = .error e) :
    e = .incomplete := by
  unfold peek_u8 at h
  split at h
  · cases h
  · cases h; rfl

theorem get_decimal_ok {c : Cursor} {v : Nat} {c' : Cursor}
    (h : get_decimal c = .ok (v, c')) :
    c'.data = c.data ∧ c.pos + 3 ≤ c'.pos ∧ c'.pos ≤ c.data.length := by
  unfold get_decimal at h
  cases hgl : get_line c with
  | error e => rw [hgl] at h; cases h
  | ok p =>
    obtain ⟨line, c1⟩ := p
    rw [hgl] at h
    dsimp only at h
    cases ha : atoiU64 line with
    | none => rw [ha] at h; cases h
    | some w =>
      rw [ha] at h
      cases h
      obtain ⟨hd, hp, hle⟩ := get_line_ok hgl
      have hne : line ≠ [] := by
        intro he
        rw [he] at ha
        simp [atoiU64] at ha
      have h1 : 1 ≤ line.length := by
        cases line
        · exact absurd rfl hne
        · simp
      exact ⟨hd, by omega, by omega⟩

theorem get_decimal_error {c : Cursor} {e : PErr} (h : get_decimal c = .error e) :
    e = .incomplete ∨ e = .protocol := by
  unfold get_decimal at h
  cases hgl : get_line c with
  | error e' =>
    rw [hgl] at h
    cases h
    exact .inl (get_line_error hgl)
  | ok p =>
    obtain ⟨line, c1⟩ := p
    rw [hgl] at h
    dsimp only at h
    cases ha : atoiU64 line with
    | none => rw [ha] at h; cases h; exact .inr rfl
    | some w => rw [ha] at h; cases h

/-- A successful `check` leaves the buffer unchanged, never moves the
position backwards, in single-frame mode consumes at least one byte, and
(unless it is a zero-length sequence check, which does nothing) ends
within the buffer. -/
theorem checkF_ok_progress :
    ∀ fuel m c c', checkF fuel m c = .ok c' →
      c'.data = c.data ∧ c.pos ≤ c'.pos ∧ (m = .one → c.pos < c'.pos) ∧
        (c'.pos ≤ c.data.length ∨ c' = c) := by
  intro fuel
  induction fuel with
  | zero => intro m c c' h; simp [checkF] at h
  | succ fuel ih =>
    intro m c c' h
    match m with
    | .many 0 =>
      simp only [checkF] at h
      cases h
      refine ⟨rfl, le_refl _, ?_, .inr rfl⟩
      exact fun hh => nomatch hh
    | .many (n + 1) =>
      simp only [checkF] at h
      cases h1 : checkF fuel .one c with
      | error e => rw [h1] at h; cases h
      | ok c1 =>
        rw [h1] at h
        obtain ⟨hd1, hp1, hs1, hb1⟩ := ih .one c c1 h1
        obtain ⟨hd2, hp2, _, hb2⟩ := ih (.many n) c1 c' h
        have hlt1 := hs1 rfl
        have hbnd1 : c1.pos ≤ c.data.length := by
          rcases hb1 with hb1 | hb1
          · exact hb1
          · rw [hb1] at hlt1; omega
        refine ⟨by rw [hd2, hd1], le_trans hp1 hp2, ?_, ?_⟩
        · exact fun hh => nomatch hh
        rcases hb2 with hb2 | hb2
        · left; rw [hd1] at hb2; exact hb2
        · left; rw [hb2]; exact hbnd1
    | .one =>
      simp only [checkF] at h
      cases hgu : get_u8 c with
      | error e => rw [hgu] at h; cases h
      | ok v =>
        obtain ⟨b, c1⟩ := v
        rw [hgu] at h
        obtain ⟨hc1, hposlt⟩ := get_u8_ok hgu
        subst hc1
        dsimp only at h
        split at h
        · cases hgl : get_line ⟨c.data, c.pos + 1⟩ with
          | error e => rw [hgl] at h; cases h
          | ok p =>
            obtain ⟨line, c2⟩ := p
            rw [hgl] at h
            cases h
            obtain ⟨hd, hp, hle⟩ := get_line_ok hgl
            dsimp only at hd hp hle
            exact ⟨hd, by omega, fun _ => by omega, .inl (by omega)⟩
        · split at h
          · cases hgl : get_line ⟨c.data, c.pos + 1⟩ with
            | error e => rw [hgl] at h; cases h
            | ok p =>
              obtain ⟨line, c2⟩ := p
              rw [hgl] at h
              cases h
              obtain ⟨hd, hp, hle⟩ := get_line_ok hgl
              dsimp only at hd hp hle
              exact ⟨hd, by omega, fun _ => by omega, .inl (by omega)⟩
          · split at h
            · cases hgd : get_decimal ⟨c.data, c.pos + 1⟩ with
              | error e => rw [hgd] at h; cases h
              | ok p =>
                obtain ⟨x, c2⟩ := p
                rw [hgd] at h
                cases h
                obtain ⟨hd, hp, hle⟩ := get_decimal_ok hgd
                dsimp only at hd hp hle
                exact ⟨hd, by omega, fun _ => by omega, .inl (by omega)⟩
            · split at h
              · cases hpk : peek_u8 ⟨c.data, c.pos + 1⟩ with
                | error e => rw [hpk] at h; cases h
                | ok pb =>
                  rw [hpk] at h
                  dsimp only at h
                  split at h
                  · obtain ⟨hc', hrem⟩ := skip_ok h
                    subst hc'
                    dsimp only [Cursor.remaining] at hrem
                    exact ⟨rfl, by dsimp only; omega, fun _ => by dsimp only; omega,
                      .inl (by dsimp only; omega)⟩
                  · cases hgd : get_decimal ⟨c.data, c.pos + 1⟩ with
                    | error e => rw [hgd] at h; cases h
                    | ok p =>
                      obtain ⟨len, c2⟩ := p
                      rw [hgd] at h
                      dsimp only at h
                      obtain ⟨hd, hp, hle⟩ := get_decimal_ok hgd
                      dsimp only at hd hp hle
                      obtain ⟨hc', hrem⟩ := skip_ok h
                      subst hc'
                      unfold Cursor.remaining at hrem
                      have hlen : c2.data.length = c.data.length := by rw [hd]
                      refine ⟨hd, ?_, fun _ => ?_, .inl ?_⟩ <;> dsimp only <;> omega
              · split at h
                · cases hgd : get_decimal ⟨c.data, c.pos + 1⟩ with
                  | error e => rw [hgd] at h; cases h
                  | ok p =>
                    obtain ⟨len, c2⟩ := p
                    rw [hgd] at h
                    obtain ⟨hd, hp, hle⟩ := get_decimal_ok hgd
                    dsimp only at hd hp hle
                    obtain ⟨hd2, hp2, _, hb2⟩ := ih (.many len) c2 c' h
                    refine ⟨by rw [hd2, hd], by omega, fun _ => by omega, ?_⟩
                    rcases hb2 with hb2 | hb2
                    · left; rw [hd] at hb2; exact hb2
                    · left; rw [hb2]; omega
                · cases h

/-- The embedding's fuel is irrelevant: with `remaining + modeNeed` units
available, `checkF` never reports fuel exhaustion, so `Frame.check`
computes exactly the unbounded recursion of `Frame::check`. -/
theorem checkF_no_fuelOut :
    ∀ fuel m c, c.remaining + modeNeed m ≤ fuel → checkF fuel m c ≠ .error .fuelOut := by
  intro fuel
  induction fuel with
  | zero => intro m c hle; cases m <;> simp [modeNeed] at hle
  | succ fuel ih =>
    intro m c hle
    match m with
    | .many 0 => simp [checkF]
    | .many (n + 1) =>
      simp only [checkF]
      cases h1 : checkF fuel .one c with
      | error e =>
        have := ih .one c (by simp [modeNeed] at hle ⊢; omega)
        intro hcon
        cases hcon
        exact this h1
      | ok c1 =>
        obtain ⟨hd1, hp1, hstrict, hb1⟩ := checkF_ok_progress fuel .one c c1 h1
        have hlt := hstrict rfl
        have hbnd : c1.pos ≤ c.data.length := by
          rcases hb1 with hb1 | hb1
          · exact hb1
          · rw [hb1] at hlt; omega
        refine ih (.many n) c1 ?_
        simp only [modeNeed] at hle ⊢
        unfold Cursor.remaining at hle ⊢
        rw [hd1]
        omega
    | .one =>
      simp only [checkF]
      cases hgu : get_u8 c with
      | error e =>
        intro hcon
        cases hcon
        exact absurd (get_u8_error hgu) (by intro hh; cases hh)
      | ok v =>
        obtain ⟨b, c1⟩ := v
        obtain ⟨hc1, hposlt⟩ := get_u8_ok hgu
        subst hc1
        dsimp only
        split
        · cases hgl : get_line ⟨c.data, c.pos + 1⟩ with
          | error e =>
            have := get_line_error hgl
            subst this
            intro hcon
            cases hcon
          | ok p => obtain ⟨line, c2⟩ := p; intro hcon; cases hcon
        · split
          · cases hgl : get_line ⟨c.data, c.pos + 1⟩ with
            | error e =>
              have := get_line_error hgl
              subst this
              intro hcon
              cases hcon
            | ok p => obtain ⟨line, c2⟩ := p; intro hcon; cases hcon
          · split
            · cases hgd : get_decimal ⟨c.data, c.pos + 1⟩ with
              | error e =>
                rcases get_decimal_error hgd with hh | hh <;> subst hh <;>
                  intro hcon <;> cases hcon
              | ok p => obtain ⟨x, c2⟩ := p; intro hcon; cases hcon
            · split
              · cases hpk : peek_u8 ⟨c.data, c.pos + 1⟩ with
                | error e =>
                  have := peek_u8_error hpk
                  subst this
                  intro hcon
                  cases hcon
                | ok pb =>
                  dsimp only
                  split
                  · intro hcon
                    unfold skip at hcon
                    split at hcon
                    · cases hcon
                    · cases hcon
                  · cases hgd : get_decimal ⟨c.data, c.pos + 1⟩ with
                    | error e =>
                      rcases get_decimal_error hgd with hh | hh <;> subst hh <;>
                        intro hcon <;> cases hcon
                    | ok p =>
                      obtain ⟨len, c2⟩ := p
                      dsimp only
                      intro hcon
                      unfold skip at hcon
                      split at hcon
                      · cases hcon
                      · cases hcon
              · split
                · cases hgd : get_decimal ⟨c.data, c.pos + 1⟩ with
                  | error e =>
                    rcases get_decimal_error hgd with hh | hh <;> subst hh <;>
                      intro hcon <;> cases hcon
                  | ok p =>
                    obtain ⟨len, c2⟩ := p
                    obtain ⟨hd, hp, hbd⟩ := get_decimal_ok hgd
                    dsimp only at hd hp hbd
                    refine ih (.many len) c2 ?_
                    simp only [modeNeed] at hle ⊢
                    unfold Cursor.remaining at hle ⊢
                    rw [hd]
                    omega
                · intro hcon
                  cases hcon

/-- `Frame.check` never reports fuel exhaustion: its fuel covers any
buffer. -/
theorem check_no_fuelOut (c : Cursor) : Frame.check c ≠ .error .fuelOut := by
  refine checkF_no_fuelOut (c.data.length + 2) .one c ?_
  unfold Cursor.remaining
  simp [modeNeed]
  omega

/-- C1, counterexample: on the five-byte buffer `$-2\r\n` the check pass
succeeds (its Null branch blindly skips four bytes after `$-`), while the
parse pass requires the line to be exactly `-1` and fails with a protocol
error. So `Frame::check` succeeding at a position does not imply
`Frame::parse` succeeds there, refuting the claimed equivalence. -/
theorem c1_check_parse_counterexample :
    Frame.check ⟨[36, 45, 50, 13, 10], 0⟩ = .ok ⟨[36, 45, 50, 13, 10], 5⟩ ∧
      Frame.parse ⟨[36, 45, 50, 13, 10], 0⟩ = .error .protocol :=
  ⟨rfl, rfl⟩

/-- C1, amended: whenever `Frame::parse` succeeds, `Frame::check`
succeeds from the same start position and leaves the cursor at the same
final position; and whenever `Frame::check` succeeds, `Frame::parse`
either succeeds with the same final position or fails — with a protocol
error (a Simple/Error line that is not valid UTF-8, or a `$-` Null
sentinel whose skipped bytes are not `-1\r\n`) or with `Incomplete` (such
a sentinel whose line has no CRLF inside the checked bytes). -/
theorem c1_check_parse_agree (c : Cursor) :
    (∀ fs c', Frame.parse c = .ok (fs, c') → Frame.check c = .ok c') ∧
      (∀ c', Frame.check c = .ok c' →
        (∃ f, Frame.parse c = .ok ([f], c')) ∨
          Frame.parse c = .error .protocol ∨ Frame.parse c = .error .incomplete) := by
  have h := rel_main (c.data.length + 2) .one c
  simp only [Rel] at h
  constructor
  · intro fs c' hp
    unfold Frame.parse at hp
    unfold Frame.check
    cases hc : checkF (c.data.length + 2) .one c with
    | ok c2 =>
      rw [hc] at h
      simp only [RelOne] at h
      rcases h with ⟨f, hpf⟩ | hpf | hpf
      · rw [hp] at hpf
        cases hpf
        rfl
      · rw [hp] at hpf; cases hpf
      · rw [hp] at hpf; cases hpf
    | error e =>
      rw [hc] at h
      simp only [RelOne] at h
      exact absurd hp (h fs c')
  · intro c' hcheck
    unfold Frame.check at hcheck
    unfold Frame.parse
    rw [hcheck] at h
    simp only [RelOne] at h
    exact h

/-- Witness for `c1_check_parse_agree` at the buffer `+OK\r\n`. -/
theorem c1_check_parse_agree_witness :
    Frame.check ⟨[43, 79, 75, 13, 10], 0⟩ = .ok ⟨[43, 79, 75, 13, 10], 5⟩ :=
  (c1_check_parse_agree ⟨[43, 79, 75, 13, 10], 0⟩).1 [.simple [79, 75]]
    ⟨[43, 79, 75, 13, 10], 5⟩ rfl

/-- C10: for every buffer and start position accepted by `Frame::check`,
`Frame::parse` from the same position never reaches the unknown-type-byte
branch (the `unimplemented!()` panic, modelled as the outcome
`PErr.unimpl`). -/
theorem c10_check_ok_parse_no_panic (c c' : Cursor)
    (h : Frame.check c = .ok c') : Frame.parse c ≠ .error .unimpl := by
  have hr := rel_main (c.data.length + 2) .one c
  simp only [Rel] at hr
  unfold Frame.check at h
  rw [h] at hr
  simp only [RelOne] at hr
  unfold Frame.parse
  rcases hr with ⟨f, hp⟩ | hp | hp <;> rw [hp] <;> simp

/-- Witness for `c10_check_ok_parse_no_panic` at the buffer `+OK\r\n`. -/
theorem c10_check_ok_parse_no_panic_witness :
    Frame.parse ⟨[43, 79, 75, 13, 10], 0⟩ ≠ .error .unimpl :=
  c10_check_ok_parse_no_panic ⟨[43, 79, 75, 13, 10], 0⟩
    ⟨[43, 79, 75, 13, 10], 5⟩ rfl

/-- C5: a length or integer line that is not a well-formed unsigned
decimal — empty, or containing any byte other than an ASCII digit — makes
`get_decimal` fail with a protocol error. In particular a line with
digits followed by non-digit bytes is rejected rather than parsed as its
leading digits. -/
theorem c5_get_decimal_rejects_malformed (c c' : Cursor) (line : List Nat)
    (hline : get_line c = .ok (line, c'))
    (hbad : line = [] ∨ ∃ b ∈ line, isDigitByte b = false) :
    get_decimal c = .error .protocol := by
  unfold get_decimal
  rw [hline]
  dsimp only
  have hnone : atoiU64 line = none := by
    rcases hbad with h | ⟨b, hb, hdig⟩
    · subst h; rfl
    · unfold atoiU64
      have hne : line.isEmpty = false := by
        cases line
        · cases hb
        · rfl
      rw [hne]
      have hall : line.all isDigitByte = false := by
        rw [List.all_eq_false]
        exact ⟨b, hb, by simp [hdig]⟩
      simp [hall]
  rw [hnone]

/-- Witness for `c5_get_decimal_rejects_malformed` at the buffer
`12a\r\n`, whose line is digits followed by the non-digit `a`. -/
theorem c5_get_decimal_rejects_malformed_witness :
    get_decimal ⟨[49, 50, 97, 13, 10], 0⟩ = .error .protocol :=
  c5_get_decimal_rejects_malformed ⟨[49, 50, 97, 13, 10], 0⟩
    ⟨[49, 50, 97, 13, 10], 5⟩ [49, 50, 97] rfl
    (.inr ⟨97, by decide, by decide⟩)

/-- C4, counterexample: after exactly seven consecutive accept failures
the helper has slept 1, 2, 4, 8, 16, 32 and 64 seconds and is still
retrying — the error is not surfaced after the seventh consecutive
failure (it takes an eighth failing attempt). -/
theorem c4_backoff_counterexample :
    Listener.accept (List.replicate 7 true) = .pending [1, 2, 4, 8, 16, 32, 64] := by
  decide

/-- C4, amended: in a run of consecutive accept failures the delays
slept between retries are exactly 1, 2, 4, 8, 16, 32, 64 seconds in that
order, and the error is surfaced (aborting the server) after the eighth
consecutive failure: eight failures surface the error after those seven
sleeps whatever follows, while `n ≤ 7` failures followed by a success
sleep the first `n` powers of two and return the accepted socket. -/
theorem c4_backoff_schedule (rest : List Bool) (n : Nat) (hn : n ≤ 7) :
    Listener.accept (List.replicate 8 true ++ rest) =
      .errored [1, 2, 4, 8, 16, 32, 64] ∧
    Listener.accept (List.replicate n true ++ false :: rest) =
      .accepted ((List.range n).map (2 ^ ·)) := by
  constructor
  · rfl
  · interval_cases n <;> rfl

/-- Witness for `c4_backoff_schedule` with two failures and a success:
sleeps of 1 and 2 seconds, then the socket is accepted. -/
theorem c4_backoff_schedule_witness :
    Listener.accept (List.replicate 8 true ++ []) =
      .errored [1, 2, 4, 8, 16, 32, 64] ∧
    Listener.accept (List.replicate 2 true ++ false :: []) =
      .accepted ((List.range 2).map (2 ^ ·)) :=
  c4_backoff_schedule [] 2 (by decide)

/-- C6: an array frame whose first child is a Simple or Bulk string (of
ASCII bytes — Unicode case mapping is outside this byte-level model)
whose lowercase form is none of the six known command names parses to
the `Unknown` variant carrying the lowercased name, without any check of
leftover children; dispatching it writes exactly the single frame
`Error "ERR unknown command '<name>'"` and succeeds with the database
unchanged, so the connection stays open. -/
theorem c6_unknown_command (first : Frame) (rest : List Frame) (name : RStr)
    (s : State)
    (hname : frameToStr first = some name)
    (hunk : asciiLower name ∉ [strGet, strPublish, strSet, strSubscribe,
      strUnsubscribe, strPing]) :
    Command.from_frame (.array (first :: rest)) =
      .ok (.unknown ⟨asciiLower name⟩) ∧
    Command.applyUnknown ⟨asciiLower name⟩ s =
      (s, [.error (strErrUnknown ++ asciiLower name ++ [39])]) := by
  simp only [List.mem_cons, List.mem_singleton, not_or] at hunk
  obtain ⟨h1, h2, h3, h4, h5, h6⟩ := hunk
  constructor
  · simp [Command.from_frame, Parse.new, next_string, hname, h1, h2, h3, h4, h5, h6]
  · rfl

/-- Witness for `c6_unknown_command`: the command name `FOO` lowercases
to `foo`, is unknown, and is answered with the single Error frame. -/
theorem c6_unknown_command_witness :
    Command.from_frame (.array [.bulk [70, 79, 79], .bulk [104, 105]]) =
      .ok (.unknown ⟨asciiLower [70, 79, 79]⟩) ∧
    Command.applyUnknown ⟨asciiLower [70, 79, 79]⟩ (State.mk [] [] [] false) =
      (State.mk [] [] [] false,
        [.error (strErrUnknown ++ asciiLower [70, 79, 79] ++ [39])]) :=
  c6_unknown_command (.bulk [70, 79, 79]) [.bulk [104, 105]] [70, 79, 79]
    (State.mk [] [] [] false) rfl (by decide)

/-- C7: `Set::parse_frames` on a cursor positioned after the command
name returns the key and value with no TTL when no tokens remain;
returns `Duration::from_secs`/`from_millis` of the following integer
after an option word whose uppercase form is `EX`/`PX` (the word may be
Simple or Bulk — both satisfy `frameToStr`); and fails for any other
option word. -/
theorem c7_set_parse_frames (kf vf : Frame) (k v : RStr)
    (hk : frameToStr kf = some k) (hv : frameToBytes vf = some v) :
    Set.parse_frames [kf, vf] = .ok (⟨k, v, none⟩, []) ∧
    (∀ opt nf s n, frameToStr opt = some s → frameToInt nf = some n →
      (asciiUpper s = [69, 88] →
        Set.parse_frames [kf, vf, opt, nf] =
          .ok (⟨k, v, some (durationFromSecs n)⟩, [])) ∧
      (asciiUpper s = [80, 88] →
        Set.parse_frames [kf, vf, opt, nf] =
          .ok (⟨k, v, some (durationFromMillis n)⟩, []))) ∧
    (∀ opt s tail, frameToStr opt = some s →
      asciiUpper s ≠ [69, 88] → asciiUpper s ≠ [80, 88] →
      Set.parse_frames (kf :: vf :: opt :: tail) = .error .other) := by
  refine ⟨?_, ?_, ?_⟩
  · simp [Set.parse_frames, next_string, next_bytes, hk, hv]
  · intro opt nf s n hs hn
    constructor
    · intro hex
      simp [Set.parse_frames, next_string, next_bytes, next_int, hk, hv, hs, hn, hex]
    · intro hpx
      simp [Set.parse_frames, next_string, next_bytes, next_int, hk, hv, hs, hn, hpx]
  · intro opt s tail hs hne hnp
    simp [Set.parse_frames, next_string, next_bytes, hk, hv, hs, hne, hnp]

/-- Witness for `c7_set_parse_frames`: key `k`, value `v`, and the three
option shapes at concrete frames. -/
theorem c7_set_parse_frames_witness :
    Set.parse_frames [.bulk [107], .bulk [118]] = .ok (⟨[107], [118], none⟩, []) ∧
    Set.parse_frames [.bulk [107], .bulk [118], .simple [101, 120], .integer 3] =
      .ok (⟨[107], [118], some (durationFromSecs 3)⟩, []) ∧
    Set.parse_frames [.bulk [107], .bulk [118], .bulk [88, 88], .integer 3] =
      .error .other :=
  ⟨(c7_set_parse_frames (.bulk [107]) (.bulk [118]) [107] [118] rfl rfl).1,
   (((c7_set_parse_frames (.bulk [107]) (.bulk [118]) [107] [118] rfl rfl).2.1
      (.simple [101, 120]) (.integer 3) [101, 120] 3 rfl rfl).1 (by decide)),
   ((c7_set_parse_frames (.bulk [107]) (.bulk [118]) [107] [118] rfl rfl).2.2
      (.bulk [88, 88]) [88, 88] [.integer 3] rfl (by decide) (by decide))⟩

/-- C9, counterexample: in the subscribed sub-state with an empty
subscription set, an UNSUBSCRIBE naming the unknown channel `foo`
succeeds — `handle_command` writes the acknowledgement
`["unsubscribe", "foo", 0]` and returns `Ok` — instead of the protocol
error the claim describes; the handler has no `len(subscribed) > 0`
requirement at all. -/
theorem c9_unsubscribe_counterexample :
    handle_command (.array [.bulk strUnsubscribe, .bulk [102, 111, 111]]) [] [] =
      .ok ([], [], [make_unsubscribe_frame [102, 111, 111] 0]) := rfl

/-- C9, amended: an UNSUBSCRIBE naming a channel the connection is not
subscribed to, while the subscription set is empty, is an idempotent
no-op serviced normally: nothing is removed, a single
`["unsubscribe", channel, 0]` acknowledgement is written, and the
handler returns success. -/
theorem c9_unsubscribe_empty_idempotent (ch : RStr) (pending : List RStr)
    (hch : utf8Valid ch = true) :
    handle_command (.array [.bulk strUnsubscribe, .bulk ch]) pending [] =
      .ok (pending, [], [make_unsubscribe_frame ch 0]) := by
  have hfs : frameToStr (.bulk ch) = some ch := by
    simp [frameToStr, hch]
  have hps : parseStrings [Frame.bulk ch] = .ok [ch] := by
    unfold parseStrings
    rw [hfs]
    rfl
  have hup : Unsubscribe.parse_frames [Frame.bulk ch] = .ok (⟨[ch]⟩, []) := by
    unfold Unsubscribe.parse_frames
    rw [hps]
  have hf : Command.from_frame (.array [.bulk strUnsubscribe, .bulk ch]) =
      .ok (.unsubscribe ⟨[ch]⟩) := by
    show (match Unsubscribe.parse_frames [Frame.bulk ch] with
      | .error e => .error e
      | .ok (cmd, rest1) =>
        match finish rest1 with
        | .error e => .error e
        | .ok _ => Except.ok (Command.unsubscribe cmd)) =
      Except.ok (Command.unsubscribe ⟨[ch]⟩)
    rw [hup]
    rfl
  unfold handle_command
  rw [hf]
  rfl

/-- Witness for `c9_unsubscribe_empty_idempotent` at channel `bar` with a
pending subscribe list. -/
theorem c9_unsubscribe_empty_idempotent_witness :
    handle_command (.array [.bulk strUnsubscribe, .bulk [98, 97, 114]]) [[113]] [] =
      .ok ([[113]], [], [make_unsubscribe_frame [98, 97, 114] 0]) :=
  c9_unsubscribe_empty_idempotent [98, 97, 114] [[113]] (by decide)


/-! ## Database lemmas -/

theorem keyLt_irrefl : ∀ x : RStr, keyLt x x = false := by
  intro x
  induction x with
  | nil => rfl
  | cons a s ih => simp [keyLt, ih]

theorem keyLt_trans : ∀ x y z : RStr,
    keyLt x y = true → keyLt y z = true → keyLt x z = true := by
  intro x
  induction x with
  | nil =>
    intro y z hxy hyz
    cases y with
    | nil => simp [keyLt] at hxy
    | cons b bs =>
      cases z with
      | nil => simp [keyLt] at hyz
      | cons c cs => simp [keyLt]
  | cons a s ih =>
    intro y z hxy hyz
    cases y with
    | nil => simp [keyLt] at hxy
    | cons b bs =>
      cases z with
      | nil => simp [keyLt] at hyz
      | cons c cs =>
        simp only [keyLt] at hxy hyz ⊢
        by_cases h1 : a < b
        · by_cases h2 : b < c
          · simp [Nat.lt_trans h1 h2]
          · by_cases h2' : c < b
            · simp [h2, h2'] at hyz
            · have : b = c := by omega
              subst this
              simp [h1]
        · by_cases h1' : b < a
          · simp [h1, h1'] at hxy
          · have : a = b := by omega
            subst this
            simp [h1, h1'] at hxy
            by_cases h2 : a < c
            · simp [h2]
            · by_cases h2' : c < a
              · simp [h2, h2'] at hyz
              · have : a = c := by omega
                subst this
                simp [h2, h2'] at hyz ⊢
                exact ih bs cs hxy hyz

theorem keyLt_total : ∀ x y : RStr,
    keyLt x y = false → x ≠ y → keyLt y x = true := by
  intro x
  induction x with
  | nil =>
    intro y hxy hne
    cases y with
    | nil => exact absurd rfl hne
    | cons b bs => simp [keyLt] at hxy
  | cons a s ih =>
    intro y hxy hne
    cases y with
    | nil => simp [keyLt]
    | cons b bs =>
      simp only [keyLt] at hxy ⊢
      by_cases h1 : a < b
      · simp [h1] at hxy
      · by_cases h1' : b < a
        · simp [h1']
        · have : a = b := by omega
          subst this
          simp [h1, h1'] at hxy ⊢
          refine ih bs hxy ?_
          intro hbs
          exact hne (by rw [hbs])

theorem pairLt_irrefl (p : Nat × RStr) : pairLt p p = false := by
  simp [pairLt, keyLt_irrefl]

theorem pairLt_trans {p q r : Nat × RStr}
    (hpq : pairLt p q = true) (hqr : pairLt q r = true) : pairLt p r = true := by
  simp only [pairLt] at hpq hqr ⊢
  by_cases h1 : p.1 < q.1
  · by_cases h2 : q.1 < r.1
    · simp [Nat.lt_trans h1 h2]
    · by_cases h2' : r.1 < q.1
      · simp [h2, h2'] at hqr
      · have : q.1 = r.1 := by omega
        simp [this ▸ h1]
  · by_cases h1' : q.1 < p.1
    · simp [h1, h1'] at hpq
    · have he : p.1 = q.1 := by omega
      simp [h1, h1'] at hpq
      by_cases h2 : q.1 < r.1
      · simp [he ▸ h2]
      · by_cases h2' : r.1 < q.1
        · simp [h2, h2'] at hqr
        · have he2 : q.1 = r.1 := by omega
          simp [h2, h2'] at hqr
          have hp1 : ¬ p.1 < r.1 := by omega
          have hp2 : ¬ r.1 < p.1 := by omega
          simp [hp1, hp2]
          exact keyLt_trans _ _ _ hpq hqr

theorem pairLt_total {p q : Nat × RStr}
    (h : pairLt p q = false) (hne : p ≠ q) : pairLt q p = true := by
  simp only [pairLt] at h ⊢
  by_cases h1 : p.1 < q.1
  · simp [h1] at h
  · by_cases h1' : q.1 < p.1
    · simp [h1']
    · have he : p.1 = q.1 := by omega
      simp [h1, h1'] at h
      simp [show ¬ q.1 < p.1 from h1', show ¬ p.1 < q.1 from h1]
      refine keyLt_total _ _ h ?_
      intro h2
      exact hne (Prod.ext he h2)

theorem pairLt_fst_le {p q : Nat × RStr} (h : pairLt p q = true) :
    p.1 ≤ q.1 := by
  simp only [pairLt] at h
  by_cases h1 : p.1 < q.1
  · omega
  · by_cases h1' : q.1 < p.1
    · simp [h1, h1'] at h
    · omega

theorem alookup_aremove_self {α : Type} (k : RStr) (l : List (RStr × α)) :
    alookup k (aremove k l) = none := by
  induction l with
  | nil => rfl
  | cons hd tl ih =>
    obtain ⟨k0, v0⟩ := hd
    by_cases hk0 : k0 = k
    · simpa [aremove, List.filter_cons, hk0] using ih
    · simpa [aremove, List.filter_cons, hk0, alookup] using ih

theorem alookup_aremove_ne {α : Type} {k k' : RStr} (hne : k' ≠ k)
    (l : List (RStr × α)) : alookup k' (aremove k l) = alookup k' l := by
  induction l with
  | nil => rfl
  | cons hd tl ih =>
    obtain ⟨k0, v0⟩ := hd
    by_cases hk0 : k0 = k
    · subst hk0
      have hk' : ¬ k0 = k' := fun h => hne (h ▸ rfl)
      simpa [aremove, List.filter_cons, alookup, hk'] using ih
    · by_cases hk' : k0 = k'
      · simp [aremove, List.filter_cons, hk0, alookup, hk', hne]
      · simpa [aremove, List.filter_cons, hk0, alookup, hk'] using ih

theorem btRemove_mem {x z : Nat × RStr} {l : List (Nat × RStr)} :
    z ∈ btRemove x l ↔ z ∈ l ∧ z ≠ x := by
  simp [btRemove, List.mem_filter]

theorem btInsert_mem (x : Nat × RStr) :
    ∀ {l : List (Nat × RStr)} {z}, z ∈ btInsert x l ↔ z = x ∨ z ∈ l := by
  intro l
  induction l with
  | nil => intro z; simp [btInsert]
  | cons y rest ih =>
    intro z
    simp only [btInsert]
    split
    · simp [List.mem_cons]
    · split
      · rename_i hxy
        subst hxy
        constructor
        · exact fun h => .inr h
        · rintro (h | h)
          · exact h ▸ List.mem_cons_self _ _
          · exact h
      · simp only [List.mem_cons, ih]
        tauto

theorem btInsert_pairwise (x : Nat × RStr) :
    ∀ {l : List (Nat × RStr)},
      l.Pairwise (fun p q => pairLt p q = true) →
      (btInsert x l).Pairwise (fun p q => pairLt p q = true) := by
  intro l
  induction l with
  | nil => intro _; simp [btInsert]
  | cons y rest ih =>
    intro h
    rw [List.pairwise_cons] at h
    obtain ⟨hy, hrest⟩ := h
    simp only [btInsert]
    split
    · rename_i hxy
      refine List.Pairwise.cons ?_ (List.Pairwise.cons hy hrest)
      intro z hz
      rcases List.mem_cons.1 hz with hz | hz
      · subst hz; exact hxy
      · exact pairLt_trans hxy (hy z hz)
    · split
      · exact List.Pairwise.cons hy hrest
      · rename_i hxy hne
        refine List.Pairwise.cons ?_ (ih hrest)
        intro z hz
        rcases (btInsert_mem x).1 hz with hz | hz
        · subst hz
          exact pairLt_total (by simpa using hxy) hne
        · exact hy z hz


theorem pairwise_ne_of_sorted {l : List (Nat × RStr)}
    (h : l.Pairwise (fun p q => pairLt p q = true)) :
    l.Pairwise (fun p q => p ≠ q) := by
  refine h.imp ?_
  intro a b hab he
  subst he
  rw [pairLt_irrefl] at hab
  cases hab

theorem pairwise_keys_of_inv {entries : List (RStr × Entry)}
    {exps : List (Nat × RStr)}
    (hiff : ∀ k t, (∃ e, alookup k entries = some e ∧ e.expires_at = some t) ↔
      (t, k) ∈ exps)
    (hnd : exps.Pairwise (fun p q => p ≠ q)) :
    exps.Pairwise (fun p q => p.2 ≠ q.2) := by
  refine List.Pairwise.imp_of_mem ?_ hnd
  intro p q hp hq hne hk
  obtain ⟨t1, k1⟩ := p
  obtain ⟨t2, k2⟩ := q
  dsimp only at hk
  subst hk
  obtain ⟨e1, he1, ht1⟩ := (hiff k1 t1).2 hp
  obtain ⟨e2, he2, ht2⟩ := (hiff k1 t2).2 hq
  rw [he1] at he2
  cases he2
  rw [ht1] at ht2
  cases ht2
  exact hne rfl

/-- After `Db::set` removes the previous `(when, key)` pair (when there
was one), no pair for `key` remains in the ordered set. -/
theorem not_mem_removed {entries : List (RStr × Entry)} {exps : List (Nat × RStr)}
    (key : RStr)
    (hiff : ∀ k t, (∃ e, alookup k entries = some e ∧ e.expires_at = some t) ↔
      (t, k) ∈ exps)
    (t : Nat) :
    (t, key) ∉
      (match alookup key entries with
       | some prev =>
         match prev.expires_at with
         | some w => btRemove (w, key) exps
         | none => exps
       | none => exps) := by
  intro hmem
  cases halo : alookup key entries with
  | none =>
    rw [halo] at hmem
    obtain ⟨e, he, _⟩ := (hiff key t).2 hmem
    rw [halo] at he
    cases he
  | some prev =>
    rw [halo] at hmem
    dsimp only at hmem
    cases hpe : prev.expires_at with
    | none =>
      rw [hpe] at hmem
      dsimp only at hmem
      obtain ⟨e, he, ht⟩ := (hiff key t).2 hmem
      rw [halo] at he
      cases he
      rw [hpe] at ht
      cases ht
    | some w =>
      rw [hpe] at hmem
      dsimp only at hmem
      rw [btRemove_mem] at hmem
      obtain ⟨hmem2, hne⟩ := hmem
      obtain ⟨e, he, ht⟩ := (hiff key t).2 hmem2
      rw [halo] at he
      cases he
      rw [hpe] at ht
      cases ht
      exact hne rfl

/-- The removal step of `Db::set` only affects pairs of the written key. -/
theorem mem_removed_ne {entries : List (RStr × Entry)} {exps : List (Nat × RStr)}
    {key k : RStr} (hne : k ≠ key) (t : Nat) :
    ((t, k) ∈
      (match alookup key entries with
       | some prev =>
         match prev.expires_at with
         | some w => btRemove (w, key) exps
         | none => exps
       | none => exps)) ↔ (t, k) ∈ exps := by
  cases alookup key entries with
  | none => exact Iff.rfl
  | some prev =>
    dsimp only
    cases prev.expires_at with
    | none => exact Iff.rfl
    | some w =>
      dsimp only
      rw [btRemove_mem]
      constructor
      · exact fun h => h.1
      · intro h
        exact ⟨h, fun he => hne (congrArg Prod.snd he)⟩

/-- The removal step of `Db::set` keeps the set strictly sorted. -/
theorem removed_pairwise (entries : List (RStr × Entry)) {exps : List (Nat × RStr)}
    (key : RStr) (hwf : exps.Pairwise (fun p q => pairLt p q = true)) :
    (match alookup key entries with
     | some prev =>
       match prev.expires_at with
       | some w => btRemove (w, key) exps
       | none => exps
     | none => exps).Pairwise (fun p q => pairLt p q = true) := by
  cases alookup key entries with
  | none => exact hwf
  | some prev =>
    dsimp only
    cases prev.expires_at with
    | none => exact hwf
    | some w => exact List.Pairwise.sublist (List.filter_sublist _) hwf

/-- What one `Db::set` call does to the state: the invariant and the
sorted-set shape are preserved, the written key now holds the new entry,
every other key is untouched, and the shutdown flag is unchanged. -/
theorem set_state_spec (s : State) (key value : RStr) (expire : Option Nat)
    (now : Nat) (hinv : DbInv s) (hwf : ExpWF s) :
    DbInv (Db.set s key value expire now).1 ∧
    ExpWF (Db.set s key value expire now).1 ∧
    alookup key (Db.set s key value expire now).1.entries =
      some ⟨value, expire.map (fun d => now + d)⟩ ∧
    (∀ k, k ≠ key →
      alookup k (Db.set s key value expire now).1.entries = alookup k s.entries) ∧
    (Db.set s key value expire now).1.shutdown = s.shutdown := by
  obtain ⟨hiff, _⟩ := hinv
  unfold Db.set
  dsimp only [ainsert]
  have hself : ∀ ea : Option Nat,
      alookup key ((key, Entry.mk value ea) :: aremove key s.entries) =
        some (Entry.mk value ea) := by
    intro ea
    simp [alookup]
  have hother : ∀ (ea : Option Nat) k, k ≠ key →
      alookup k ((key, Entry.mk value ea) :: aremove key s.entries) =
        alookup k s.entries := by
    intro ea k hk
    have : ¬ key = k := fun h => hk h.symm
    simp only [alookup, if_neg this]
    exact alookup_aremove_ne hk _
  cases expire with
  | none =>
    dsimp only [Option.map]
    have hwf2 := removed_pairwise s.entries key hwf
    have hiff2 : ∀ k t,
        (∃ e, alookup k ((key, Entry.mk value none) :: aremove key s.entries) =
          some e ∧ e.expires_at = some t) ↔
        (t, k) ∈ (match alookup key s.entries with
          | some prev =>
            match prev.expires_at with
            | some w => btRemove (w, key) s.expirations
            | none => s.expirations
          | none => s.expirations) := by
      intro k t
      by_cases hk : k = key
      · subst hk
        rw [hself]
        refine iff_of_false ?_ (not_mem_removed k hiff t)
        rintro ⟨e, he, ht⟩
        cases he
        cases ht
      · rw [hother none k hk, mem_removed_ne hk t]
        exact hiff k t
    refine ⟨⟨hiff2, ?_⟩, hwf2, hself none, hother none, rfl⟩
    exact pairwise_keys_of_inv hiff2 (pairwise_ne_of_sorted hwf2)
  | some d =>
    dsimp only [Option.map]
    have hwf1 := removed_pairwise s.entries key hwf
    have hwf2 := btInsert_pairwise (now + d, key) hwf1
    have hiff2 : ∀ k t,
        (∃ e, alookup k ((key, Entry.mk value (some (now + d))) ::
            aremove key s.entries) = some e ∧ e.expires_at = some t) ↔
        (t, k) ∈ btInsert (now + d, key) (match alookup key s.entries with
          | some prev =>
            match prev.expires_at with
            | some w => btRemove (w, key) s.expirations
            | none => s.expirations
          | none => s.expirations) := by
      intro k t
      rw [btInsert_mem]
      by_cases hk : k = key
      · subst hk
        rw [hself]
        constructor
        · rintro ⟨e, he, ht⟩
          cases he
          cases ht
          exact .inl rfl
        · rintro (he | hmem)
          · cases he
            exact ⟨_, rfl, rfl⟩
          · exact absurd hmem (not_mem_removed k hiff t)
      · rw [hother (some (now + d)) k hk]
        constructor
        · intro h
          exact .inr ((mem_removed_ne hk t).2 ((hiff k t).1 h))
        · rintro (he | hmem)
          · exact absurd (congrArg Prod.snd he) hk
          · exact (hiff k t).2 ((mem_removed_ne hk t).1 hmem)
    refine ⟨⟨hiff2, ?_⟩, hwf2, hself _, hother _, rfl⟩
    exact pairwise_keys_of_inv hiff2 (pairwise_ne_of_sorted hwf2)


/-- The purge loop preserves the invariant (on the surviving pairs) and
the sorted shape. -/
theorem purgeLoop_spec :
    ∀ (exps : List (Nat × RStr)) (entries : List (RStr × Entry)) (now : Nat),
      (∀ k t, (∃ e, alookup k entries = some e ∧ e.expires_at = some t) ↔
        (t, k) ∈ exps) →
      exps.Pairwise (fun p q => pairLt p q = true) →
      exps.Pairwise (fun p q => p.2 ≠ q.2) →
      (∀ k t, (∃ e, alookup k (purgeLoop now exps entries).2.1 = some e ∧
          e.expires_at = some t) ↔ (t, k) ∈ (purgeLoop now exps entries).1) ∧
      (purgeLoop now exps entries).1.Pairwise (fun p q => pairLt p q = true) := by
  intro exps
  induction exps with
  | nil => intro entries now hiff hwf _; exact ⟨hiff, hwf⟩
  | cons hd rest ih =>
    intro entries now hiff hwf hkeys
    obtain ⟨w, key⟩ := hd
    rw [List.pairwise_cons] at hwf hkeys
    obtain ⟨hwfh, hwft⟩ := hwf
    obtain ⟨hkh, hkt⟩ := hkeys
    simp only [purgeLoop]
    split
    · exact ⟨hiff, List.pairwise_cons.2 ⟨hwfh, hwft⟩⟩
    · refine ih (aremove key entries) now ?_ hwft hkt
      intro k t
      by_cases hk : k = key
      · subst hk
        rw [alookup_aremove_self]
        refine iff_of_false ?_ ?_
        · rintro ⟨e, he, _⟩; cases he
        · intro hmem
          exact (hkh (t, k) hmem) rfl
      · rw [alookup_aremove_ne hk, hiff k t, List.mem_cons]
        constructor
        · rintro (he | hm)
          · exact absurd (congrArg Prod.snd he) hk
          · exact hm
        · exact fun hm => .inr hm

/-- `purge_expired_keys` preserves the database invariant. -/
theorem purge_state_spec (s : State) (now : Nat) (hinv : DbInv s) (hwf : ExpWF s) :
    DbInv (purge_expired_keys s now).1 ∧ ExpWF (purge_expired_keys s now).1 := by
  obtain ⟨hiff, hkeys⟩ := hinv
  unfold purge_expired_keys
  split
  · exact ⟨⟨hiff, hkeys⟩, hwf⟩
  · dsimp only
    obtain ⟨hiff2, hwf2⟩ := purgeLoop_spec s.expirations s.entries now hiff hwf hkeys
    exact ⟨⟨hiff2, pairwise_keys_of_inv hiff2 (pairwise_ne_of_sorted hwf2)⟩, hwf2⟩

/-- The purge loop never resurrects a key that is already absent. -/
theorem purgeLoop_lookup_none :
    ∀ (exps : List (Nat × RStr)) (entries : List (RStr × Entry)) (now : Nat)
      (k : RStr), alookup k entries = none →
      alookup k (purgeLoop now exps entries).2.1 = none := by
  intro exps
  induction exps with
  | nil => intro entries now k h; exact h
  | cons hd rest ih =>
    intro entries now k h
    obtain ⟨w, key⟩ := hd
    simp only [purgeLoop]
    split
    · exact h
    · refine ih _ now k ?_
      by_cases hk : k = key
      · subst hk; exact alookup_aremove_self _ _
      · rw [alookup_aremove_ne hk]; exact h

/-- A key whose `(w, k)` pair is already due (`w ≤ now`) is removed by the
purge loop. -/
theorem purgeLoop_removes :
    ∀ (exps : List (Nat × RStr)) (entries : List (RStr × Entry)) (now w : Nat)
      (k : RStr),
      exps.Pairwise (fun p q => pairLt p q = true) →
      exps.Pairwise (fun p q => p.2 ≠ q.2) →
      (w, k) ∈ exps → w ≤ now →
      alookup k (purgeLoop now exps entries).2.1 = none := by
  intro exps
  induction exps with
  | nil => intro entries now w k _ _ hmem _; cases hmem
  | cons hd rest ih =>
    intro entries now w k hwf hkeys hmem hle
    obtain ⟨w0, key0⟩ := hd
    rw [List.pairwise_cons] at hwf hkeys
    obtain ⟨hwfh, hwft⟩ := hwf
    obtain ⟨hkh, hkt⟩ := hkeys
    simp only [purgeLoop]
    split
    · rename_i hlt
      exfalso
      rcases List.mem_cons.1 hmem with he | hm
      · have h1 : w = w0 := congrArg Prod.fst he
        omega
      · have h2 := pairLt_fst_le (hwfh _ hm)
        omega
    · rcases List.mem_cons.1 hmem with he | hm
      · have hk : k = key0 := congrArg Prod.snd he
        subst hk
        exact purgeLoop_lookup_none rest _ now k (alookup_aremove_self _ _)
      · exact ih _ now w k hwft hkt hm hle

/-- A key all of whose pairs are still in the future is untouched by the
purge loop. -/
theorem purgeLoop_keeps :
    ∀ (exps : List (Nat × RStr)) (entries : List (RStr × Entry)) (now : Nat)
      (k : RStr), (∀ t, (t, k) ∈ exps → now < t) →
      alookup k (purgeLoop now exps entries).2.1 = alookup k entries := by
  intro exps
  induction exps with
  | nil => intro entries now k _; rfl
  | cons hd rest ih =>
    intro entries now k hfut
    obtain ⟨w0, key0⟩ := hd
    simp only [purgeLoop]
    split
    · rfl
    · rename_i hnlt
      have hne : k ≠ key0 := by
        intro he
        subst he
        exact hnlt (hfut w0 (List.mem_cons_self _ _))
      rw [ih _ now k (fun t ht => hfut t (List.mem_cons_of_mem _ ht))]
      exact alookup_aremove_ne hne _

/-- C2: the database state invariant — a key is stored with expiration
`t` iff the pair `(t, key)` is in the ordered set, and no two pairs of
the set share a key — holds after every operation: `set` (with or
without TTL, `expire` covers both), purge of expired keys, `get`,
`subscribe`, `publish`, and `shutdown_purge_task`. -/
theorem c2_invariant_all_ops (s : State) (key value ch : RStr)
    (expire : Option Nat) (now now2 : Nat)
    (hinv : DbInv s) (hwf : ExpWF s) :
    (DbInv (Db.set s key value expire now).1 ∧
      ExpWF (Db.set s key value expire now).1) ∧
    (DbInv (purge_expired_keys s now2).1 ∧
      ExpWF (purge_expired_keys s now2).1) ∧
    (DbInv (Db.get s key).1 ∧ ExpWF (Db.get s key).1) ∧
    (DbInv (Db.subscribe s ch) ∧ ExpWF (Db.subscribe s ch)) ∧
    (DbInv (Db.publish s ch).1 ∧ ExpWF (Db.publish s ch).1) ∧
    (DbInv (shutdown_purge_task s) ∧ ExpWF (shutdown_purge_task s)) := by
  obtain ⟨h1, h2, _, _, _⟩ := set_state_spec s key value expire now hinv hwf
  refine ⟨⟨h1, h2⟩, purge_state_spec s now2 hinv hwf, ⟨hinv, hwf⟩, ?_,
    ⟨hinv, hwf⟩, ⟨hinv, hwf⟩⟩
  unfold Db.subscribe
  cases alookup ch s.pub_sub <;> exact ⟨hinv, hwf⟩

/-- Witness for `c2_invariant_all_ops`: the invariant after a TTL `set`
on the empty database. -/
theorem c2_invariant_all_ops_witness :
    DbInv (Db.set (State.mk [] [] [] false) [107] [118] (some 5) 0).1 :=
  ((c2_invariant_all_ops (State.mk [] [] [] false) [107] [118] [99] (some 5) 0 0
    ⟨fun k t => by simp [alookup], by simp⟩ (by simp [ExpWF])).1).1

/-- C3: after `SET key value` with TTL `d` at instant `now` (with the
server running, `shutdown = false`), a GET returns the stored value, and
still does after any reaper pass at an instant before `now + d`; a
reaper pass at or after `now + d` removes the entry, so a GET then
returns Null (`none`). -/
theorem c3_ttl_get (s : State) (key value : RStr) (d now : Nat)
    (hinv : DbInv s) (hwf : ExpWF s) (hsd : s.shutdown = false) :
    ((Db.get (Db.set s key value (some d) now).1 key).2 = some value) ∧
    (∀ now2, now2 < now + d →
      (Db.get (purge_expired_keys (Db.set s key value (some d) now).1 now2).1
        key).2 = some value) ∧
    (∀ now2, now + d ≤ now2 →
      (Db.get (purge_expired_keys (Db.set s key value (some d) now).1 now2).1
        key).2 = none) := by
  obtain ⟨⟨hiff1, hkeys1⟩, hwf1, hself, hother, hshut⟩ :=
    set_state_spec s key value (some d) now hinv hwf
  have hlook : alookup key (Db.set s key value (some d) now).1.entries =
      some ⟨value, some (now + d)⟩ := by simpa using hself
  have hmem : (now + d, key) ∈ (Db.set s key value (some d) now).1.expirations :=
    (hiff1 key (now + d)).1 ⟨_, hlook, rfl⟩
  have honly : ∀ t, (t, key) ∈ (Db.set s key value (some d) now).1.expirations →
      t = now + d := by
    intro t ht
    obtain ⟨e, he, hexp⟩ := (hiff1 key t).2 ht
    rw [hlook] at he
    cases he
    cases hexp
    rfl
  have hsd1 : (Db.set s key value (some d) now).1.shutdown = false := by
    rw [hshut]; exact hsd
  refine ⟨?_, ?_, ?_⟩
  · simp [Db.get, hlook]
  · intro now2 hlt
    simp only [purge_expired_keys, hsd1, Bool.false_eq_true, if_false, Db.get]
    rw [purgeLoop_keeps _ _ _ _ (fun t ht => by have := honly t ht; omega)]
    rw [hlook]
    rfl
  · intro now2 hge
    simp only [purge_expired_keys, hsd1, Bool.false_eq_true, if_false, Db.get]
    rw [purgeLoop_removes _ _ now2 (now + d) key hwf1 hkeys1 hmem hge]
    rfl

/-- Witness for `c3_ttl_get`: set `k` with a 5 ms TTL on the empty
database at instant 0; a reaper pass at instant 5 removes it. -/
theorem c3_ttl_get_witness :
    (Db.get (purge_expired_keys
      (Db.set (State.mk [] [] [] false) [107] [118] (some 5) 0).1 5).1 [107]).2 =
      none :=
  (c3_ttl_get (State.mk [] [] [] false) [107] [118] 5 0
    ⟨fun k t => by simp [alookup], by simp⟩ (by simp [ExpWF]) rfl).2.2 5
    (by omega)

/-- C8: the reaper-notification flag of `Db::set` is true exactly when
the new entry has an expiration that strictly precedes every expiration
currently in the ordered set (in particular when the set is empty); and
in the event order of the call, the mutex release strictly precedes any
reaper notification. -/
theorem c8_set_notify (s : State) (key value : RStr) (expire : Option Nat)
    (now : Nat) (hwf : ExpWF s) :
    ((Db.set s key value expire now).2 = true ↔
      ∃ d, expire = some d ∧ ∀ p ∈ s.expirations, now + d < p.1) ∧
    (∀ j, (Db.setEvents s key value expire now).get? j = some .notifyReaper →
      ∃ i, i < j ∧
        (Db.setEvents s key value expire now).get? i = some .lockRelease) := by
  constructor
  · unfold Db.set
    dsimp only
    cases expire with
    | none => simp
    | some d =>
      dsimp only [Option.map]
      cases hne : s.next_expiration with
      | none =>
        have hnil : s.expirations = [] := by
          unfold State.next_expiration at hne
          cases hx : s.expirations
          · rfl
          · rw [hx] at hne; simp at hne
        simp [hnil]
      | some e0 =>
        obtain ⟨p0, rest, hx, hp0⟩ :
            ∃ p0 rest, s.expirations = p0 :: rest ∧ p0.1 = e0 := by
          unfold State.next_expiration at hne
          cases hx : s.expirations with
          | nil => rw [hx] at hne; simp at hne
          | cons p0 rest =>
            rw [hx] at hne
            simp at hne
            exact ⟨p0, rest, rfl, hne⟩
        unfold ExpWF at hwf
        rw [hx] at hwf ⊢
        rw [List.pairwise_cons] at hwf
        obtain ⟨hwfh, _⟩ := hwf
        simp only [decide_eq_true_iff, Option.some.injEq]
        constructor
        · intro hlt
          refine ⟨d, rfl, ?_⟩
          intro p hp
          rcases List.mem_cons.1 hp with he | hm
          · rw [he, hp0]
            exact hlt
          · have h1 := pairLt_fst_le (hwfh p hm)
            omega
        · rintro ⟨d2, hd2, hall⟩
          cases hd2
          have := hall p0 (List.mem_cons_self _ _)
          omega
  · intro j hj
    unfold Db.setEvents at hj ⊢
    cases hnote : (Db.set s key value expire now).2 with
    | false =>
      rw [hnote] at hj
      rcases j with _ | _ | j
      · exact absurd hj (by decide)
      · exact absurd hj (by decide)
      · simp at hj
    | true =>
      rw [hnote] at hj
      rcases j with _ | _ | j
      · exact absurd hj (by decide)
      · exact absurd hj (by decide)
      · rcases j with _ | j
        · exact ⟨1, by omega, rfl⟩
        · simp at hj

/-- Witness for `c8_set_notify` on a database whose earliest (and only)
expiration is at instant 50: a new TTL expiring at instant 7 must wake
the reaper. -/
theorem c8_set_notify_witness :
    ((Db.set (State.mk [] [] [(50, [97])] false) [107] [118] (some 7) 0).2 = true ↔
      ∃ d, some 7 = some d ∧
        ∀ p ∈ (State.mk [] [] [(50, [97])] false).expirations, 0 + d < p.1) :=
  (c8_set_notify (State.mk [] [] [(50, [97])] false) [107] [118] (some 7) 0
    (by simp [ExpWF])).1


end MiniRedis
